import Mathlib

/-!
# Settlement and bankroll-accounting engine: a shallow embedding

This file embeds the calculation core of a sports-betting ledger
(odds conversion, parlay multiplier resolution, ticket status
derivation, settlement, unit-size recommendation and the dashboard's
current-bankroll figure) as executable Lean definitions, and proves or
refutes the specification's claims about it.

JavaScript numbers are modelled as exact rationals (`ℚ`); a value that
may be non-finite in JavaScript (`NaN`, `±Infinity`, e.g. the result of
`Number(...)` on a malformed string) is modelled as `Option ℚ`, with
`none` standing for any non-finite value.  `Math.round` rounds half
toward positive infinity, i.e. `⌊x + 1/2⌋`.  Exceptions are modelled
with `Except String`.
-/

namespace BetTracker

/-- Ticket status, from `type TicketStatus` in `src/app/new/page.tsx`:
`"open" | "won" | "lost" | "push" | "void" | "partial"`.
(`open` is a Lean keyword, hence the `t` prefixes.) -/
inductive TicketStatus where
  | topen
  | twon
  | tlost
  | tpush
  | tvoid
  | tpart
deriving DecidableEq, Repr

/-- Leg status, from `LegDraft.status` in `src/app/new/page.tsx`:
`"open" | "won" | "lost" | "push" | "void"`. -/
inductive LegStatus where
  | lopen
  | lwon
  | llost
  | lpush
  | lvoid
deriving DecidableEq, Repr

/-- Ticket type: `"single" | "parlay"`. -/
inductive TicketType where
  | single
  | parlay
deriving DecidableEq, Repr

/-- One draft leg of a ticket (`type LegDraft` in `src/app/new/page.tsx`).
In the source `american_odds` is a string and every use site converts it
with `Number(...)`; we store the converted value directly: `some q` for a
finite parse result `q`, `none` for a non-finite one (`NaN`, `±Infinity`). -/
structure LegDraft where
  selection : String
  american_odds : Option ℚ
  status : LegStatus
deriving DecidableEq, Repr

/-- `round2` from `src/app/new/page.tsx` line 31:
`Math.round(n * 100) / 100`, with `Math.round x = ⌊x + 1/2⌋`. -/
def round2 (n : ℚ) : ℚ :=
  (⌊n * 100 + 1/2⌋ : ℚ) / 100

/-- `americanToDecimal` from `src/app/new/page.tsx` lines 34–38.
`throw new Error("Invalid American odds")` on zero or non-finite input;
otherwise `1 + a/100` for positive `a` and `1 + 100/Math.abs(a)` for
negative `a`. -/
def americanToDecimal (american : Option ℚ) : Except String ℚ :=
  match american with
  | none => .error "Invalid American odds"
  | some a =>
      if a = 0 then .error "Invalid American odds"
      else if a > 0 then .ok (1 + a / 100)
      else .ok (1 + 100 / |a|)

/-- The value `americanToDecimal` returns on a finite input that passed
the zero check (used by the multiplier resolver, which performs the
finiteness and zero checks itself before converting, so the conversion
can never throw there). -/
def americanToDecimalV (a : ℚ) : ℚ :=
  if a > 0 then 1 + a / 100 else 1 + 100 / |a|

/-- `computeUnitSize` from `src/app/new/page.tsx` lines 39–44. -/
def computeUnitSize (prevMonthEndingBankroll : ℚ) : ℚ :=
  let raw := prevMonthEndingBankroll * 0.05
  let roundedDown := (⌊raw / 50⌋ : ℚ) * 50
  let nonNegative := max 0 roundedDown
  min 10000 nonNegative

/-- The parlay branch of the multiplier `useMemo` in
`src/app/new/page.tsx` lines 131–137: a left-to-right loop over the
legs, starting from `1`; a `push`/`void` leg is skipped before its odds
are even parsed; any other leg with non-finite or zero odds aborts with
`{multiplier: 1, valid: false}` (modelled as `none`). -/
def parlayLoopAux : List LegDraft → ℚ → Option ℚ
  | [], m => some m
  | l :: rest, m =>
      if l.status == .lpush || l.status == .lvoid then
        parlayLoopAux rest m
      else
        match l.american_odds with
        | none => none
        | some a => if a = 0 then none else parlayLoopAux rest (m * americanToDecimalV a)

/-- The multiplier resolver `useMemo` from `src/app/new/page.tsx`
lines 120–142, returning `(multiplier, multiplierValid)`.  The
surrounding `try/catch` is unreachable: every call to
`americanToDecimal` is guarded by the same finiteness/zero check that
makes it throw, so the conversion value `americanToDecimalV` is used
directly. -/
def resolveMultiplier : TicketType → List LegDraft → ℚ × Bool
  | .single, legs =>
      match legs with
      | [l] =>
          match l.american_odds with
          | some a => if a = 0 then (1, false) else (americanToDecimalV a, true)
          | none => (1, false)
      | _ => (1, false)
  | .parlay, legs =>
      if legs.length < 2 then (1, false)
      else
        match parlayLoopAux legs 1 with
        | some m => (m, decide (m > 1))
        | none => (1, false)

/-- `derivedParlayStatus` from `src/app/new/page.tsx` lines 144–153.
Returns `null` (`none`) for non-parlay tickets; otherwise applies the
precedence rules: any lost leg → lost; any open leg → open; all legs
void/push → push; any won leg → won; fallback push. -/
def derivedParlayStatus (ticketType : TicketType) (legs : List LegDraft) :
    Option TicketStatus :=
  if ticketType != .parlay then none
  else if legs.any (fun l => l.status == .llost) then some .tlost
  else if !(legs.all (fun l => l.status != .lopen)) then some .topen
  else if legs.all (fun l => l.status == .lvoid || l.status == .lpush) then some .tpush
  else if legs.any (fun l => l.status == .lwon) then some .twon
  else some .tpush

/-- The `legs.reduce` of `src/app/new/page.tsx` lines 295–299
(`winMultiplier` in the parlay-won branch of the settlement
calculation), threaded through `Except` because here the conversion is
not guarded and may throw. -/
def winMultiplierAux : List LegDraft → ℚ → Except String ℚ
  | [], acc => .ok acc
  | l :: rest, acc =>
      if l.status == .lpush || l.status == .lvoid then
        winMultiplierAux rest (acc * 1)
      else
        match americanToDecimal l.american_odds with
        | .error e => .error e
        | .ok dec => winMultiplierAux rest (acc * dec)

/-- `winMultiplier`: `legs.reduce(..., 1)`. -/
def winMultiplier (legs : List LegDraft) : Except String ℚ :=
  winMultiplierAux legs 1

/-- The `{payout, profit, settled_at}` record returned by the
settlement calculation; `settled_at` holds the sentinel string
`"SET_NOW"` or `null`. -/
structure SettleResult where
  payout : Option ℚ
  profit : Option ℚ
  settled_at : Option String
deriving DecidableEq, Repr

/-- `computePayoutProfitForCreate` from `src/app/new/page.tsx`
lines 256–307.  `payoutOverride` is `number | null`; we model it as
`Option (Option ℚ)`: `none` for `null`, `some none` for a non-finite
number, `some (some q)` for a finite number `q` — the override branch
fires only in the last case (`typeof payoutOverride === "number" &&
Number.isFinite(payoutOverride)`).  `legs[0]?.american_odds` on an
empty list is `undefined`, whose `Number(...)` is `NaN`, hence
`legs.head? >>= american_odds` below. -/
def computePayoutProfitForCreate (ticketType : TicketType) (stake : ℚ)
    (statusToStore : TicketStatus) (legs : List LegDraft)
    (payoutOverride : Option (Option ℚ))
    (derivedStatus : Option TicketStatus) : Except String SettleResult :=
  match payoutOverride with
  | some (some ov) =>
      let payout := round2 ov
      let profit := round2 (payout - stake)
      .ok ⟨some payout, some profit,
           if statusToStore = .topen then none else some "SET_NOW"⟩
  | _ =>
    match ticketType with
    | .single =>
        if statusToStore = .topen ∨ statusToStore = .tpart then
          .ok ⟨none, none, none⟩
        else if statusToStore = .tpush ∨ statusToStore = .tvoid then
          .ok ⟨some (round2 stake), some 0, some "SET_NOW"⟩
        else if statusToStore = .tlost then
          .ok ⟨some 0, some (round2 (0 - stake)), some "SET_NOW"⟩
        else if statusToStore = .twon then
          match americanToDecimal ((legs.head?).bind (·.american_odds)) with
          | .error e => .error e
          | .ok dec =>
              let payout := round2 (stake * dec)
              let profit := round2 (payout - stake)
              .ok ⟨some payout, some profit, some "SET_NOW"⟩
        else
          .ok ⟨none, none, none⟩
    | .parlay =>
        let pStatus := derivedStatus.getD .topen
        if pStatus = .topen then .ok ⟨none, none, none⟩
        else if pStatus = .tpush ∨ pStatus = .tvoid then
          .ok ⟨some (round2 stake), some 0, some "SET_NOW"⟩
        else if pStatus = .tlost then
          .ok ⟨some 0, some (round2 (0 - stake)), some "SET_NOW"⟩
        else if pStatus = .twon then
          match winMultiplier legs with
          | .error e => .error e
          | .ok wm =>
              let payout := round2 (stake * wm)
              let profit := round2 (payout - stake)
              .ok ⟨some payout, some profit, some "SET_NOW"⟩
        else
          .ok ⟨none, none, none⟩

/-- The write step of `save()` in `src/app/new/page.tsx` line 348:
`computed.settled_at === "SET_NOW" ? placedAtIso : null`.  Note: the
stored timestamp is the ticket's placed-at instant (local midnight of
the placed date), not the wall-clock time of the save. -/
def settledAtIsoForCreate (computed : SettleResult) (placedAtIso : String) :
    Option String :=
  if computed.settled_at = some "SET_NOW" then some placedAtIso else none

/-- `computedPayoutProfit` from `src/app/ticket/[id]/page.tsx`
lines 978–1017 (the edit screen's settlement calculation), assuming a
loaded ticket.  The manual override applies only when the payout field
was edited (`payoutEdited`) to a nonempty string (`payoutInput ≠ none`
models `payoutInput.trim() !== ""`) parsing to a finite number
(`some (some q)`); a nonempty non-finite parse (`some none`) falls
through to the computed branches.  The single branch returns nulls for
status `open` **or `partial`** (line 992).  Legs are modelled with the
same `LegDraft` record (the edit page's `Leg` carries the same
`american_odds`/`status` fields). -/
def computedPayoutProfit (ticket_type : TicketType) (stakeNum : ℚ)
    (singleStatus : TicketStatus) (derivedStatus : Option TicketStatus)
    (legs : List LegDraft) (payoutEdited : Bool)
    (payoutInput : Option (Option ℚ)) :
    Except String (Option ℚ × Option ℚ) :=
  match payoutEdited, payoutInput with
  | true, some (some payoutNum) =>
      let payout := round2 payoutNum
      let profit := round2 (payout - stakeNum)
      .ok (some payout, some profit)
  | _, _ =>
    match ticket_type with
    | .single =>
        if singleStatus = .topen ∨ singleStatus = .tpart then .ok (none, none)
        else if singleStatus = .tpush ∨ singleStatus = .tvoid then
          .ok (some (round2 stakeNum), some 0)
        else if legs.length ≠ 1 then .ok (none, none)
        else if singleStatus = .tlost then
          .ok (some 0, some (round2 (0 - stakeNum)))
        else
          match americanToDecimal ((legs.head?).bind (·.american_odds)) with
          | .error e => .error e
          | .ok dec =>
              let payout := round2 (stakeNum * dec)
              let profit := round2 (payout - stakeNum)
              .ok (some payout, some profit)
    | .parlay =>
        let pStatus := derivedStatus.getD .topen
        if pStatus = .topen then .ok (none, none)
        else if pStatus = .tpush ∨ pStatus = .tvoid then
          .ok (some (round2 stakeNum), some 0)
        else if pStatus = .tlost then
          .ok (some 0, some (round2 (0 - stakeNum)))
        else
          match winMultiplier legs with
          | .error e => .error e
          | .ok wm =>
              let payout := round2 (stakeNum * wm)
              let profit := round2 (payout - stakeNum)
              .ok (some payout, some profit)

/-- The write step of `saveTicketEdits()` in
`src/app/ticket/[id]/page.tsx` line 1035: `settledAtIso =
statusToStore === "open" || statusToStore === "partial" ? null :
placedAtIso`.  As on the create screen, the stored timestamp is the
placed-at instant, not the wall-clock time of the save. -/
def settledAtIsoForEdit (statusToStore : TicketStatus) (placedAtIso : String) :
    Option String :=
  if statusToStore = .topen ∨ statusToStore = .tpart then none else some placedAtIso

/-- A stored ticket row as fetched by the dashboard
(`src/app/page.tsx`): `profit` is `number | null`; `none` models both
`null` and a non-finite number (the dashboard treats both as
contributing `0`). -/
structure TicketRec where
  ticket_type : TicketType
  stake : ℚ
  status : TicketStatus
  payout : Option ℚ
  profit : Option ℚ
  placed_at : String
  league : Option String
deriving DecidableEq, Repr

/-- `ticketsFiltered` from `src/app/page.tsx` lines 636–647: the league
filter applies unless it is `"ALL"`, and the date range (already
resolved to a local-midnight ISO start and exclusive end, compared as
strings as in the source) applies when both bounds are present. -/
def ticketsFiltered (tickets : List TicketRec) (leagueFilter : String)
    (range : Option (String × String)) : List TicketRec :=
  let out :=
    if leagueFilter ≠ "ALL" then
      tickets.filter (fun t => t.league == some leagueFilter)
    else tickets
  match range with
  | some (startIso, endExclusiveIso) =>
      out.filter (fun t => startIso ≤ t.placed_at ∧ t.placed_at < endExclusiveIso)
  | none => out

/-- `settledTicketsInRange` from `src/app/page.tsx` lines 649–654: the
filtered tickets whose status is not `open` ("settled" in this
codebase's vocabulary).  (The source also sorts by `placed_at`; no
claim depends on the order.) -/
def settledTicketsInRange (tickets : List TicketRec) (leagueFilter : String)
    (range : Option (String × String)) : List TicketRec :=
  (ticketsFiltered tickets leagueFilter range).filter (fun t => t.status != .topen)

/-- `currentBankroll` from `src/app/page.tsx` lines 688–697: starting
bankroll plus all-time profit of every ticket whose status is not
`open`, with null/non-finite profit contributing `0`, rounded to two
decimals.  It reads the **unfiltered** ticket list. -/
def currentBankroll (tickets : List TicketRec) (startingBankroll : ℚ) : ℚ :=
  let allTimeProfit := tickets.foldl
    (fun acc t =>
      if t.status == .topen then acc
      else
        let p := match t.profit with
          | some q => q
          | none => 0
        acc + p) 0
  round2 (startingBankroll + allTimeProfit)

/-- The dashboard's current-bankroll figure as a function of the whole
screen state: the league filter and date range feed `ticketsFiltered`
(used by the summary cards and graph), but `currentBankroll` is
computed from the unfiltered `tickets` list, which is what makes it
filter-independent. -/
def dashboardCurrentBankroll (tickets : List TicketRec) (startingBankroll : ℚ)
    (leagueFilter : String) (range : Option (String × String)) : ℚ :=
  currentBankroll tickets startingBankroll

/-- Profit of one settled ticket as counted by the dashboard
(null / non-finite counts as `0`). -/
def profitOrZero (t : TicketRec) : ℚ :=
  match t.profit with
  | some q => q
  | none => 0

/-- Sum of profit over the settled (status ≠ open) tickets of a list. -/
def settledProfitSum (tickets : List TicketRec) : ℚ :=
  ((tickets.filter (fun t => t.status != .topen)).map profitOrZero).sum

/-- A rational that is representable with two decimal places (every
stored monetary amount produced by `round2` is of this form). -/
def TwoDec (q : ℚ) : Prop := ∃ n : ℤ, q = n / 100

/-! ## Helper lemmas -/

/-- On a finite nonzero input the conversion succeeds with value
`americanToDecimalV`. -/
theorem americanToDecimal_some {a : ℚ} (ha : a ≠ 0) :
    americanToDecimal (some a) = .ok (americanToDecimalV a) := by
  simp only [americanToDecimal, americanToDecimalV, ha, if_false]
  split <;> rfl

/-- Positive finite odds convert to `1 + a/100`. -/
theorem americanToDecimal_pos {a : ℚ} (ha : 0 < a) :
    americanToDecimal (some a) = .ok (1 + a / 100) := by
  simp [americanToDecimal, ne_of_gt ha, ha]

/-- Negative finite odds convert to `1 + 100/|a|`. -/
theorem americanToDecimal_neg {a : ℚ} (ha : a < 0) :
    americanToDecimal (some a) = .ok (1 + 100 / |a|) := by
  simp [americanToDecimal, ne_of_lt ha, not_lt_of_gt ha]

/-- Every decimal multiplier of valid odds strictly exceeds 1. -/
theorem one_lt_americanToDecimalV {a : ℚ} (ha : a ≠ 0) :
    1 < americanToDecimalV a := by
  unfold americanToDecimalV
  split
  · rename_i h
    have : 0 < a / 100 := by positivity
    linarith
  · rename_i h
    have habs : 0 < |a| := abs_pos.mpr ha
    have : 0 < 100 / |a| := by positivity
    linarith

/-- `round2` is the identity on two-decimal rationals. -/
theorem round2_eq_self {q : ℚ} (hq : TwoDec q) : round2 q = q := by
  obtain ⟨n, rfl⟩ := hq
  unfold round2
  have h1 : (n : ℚ) / 100 * 100 + 1 / 2 = (n : ℚ) + 1 / 2 := by ring
  rw [h1]
  have h2 : ⌊(n : ℚ) + 1 / 2⌋ = n := by
    rw [add_comm, Int.floor_add_int]
    norm_num
  rw [h2]

theorem twoDec_add {a b : ℚ} (ha : TwoDec a) (hb : TwoDec b) : TwoDec (a + b) := by
  obtain ⟨m, rfl⟩ := ha
  obtain ⟨n, rfl⟩ := hb
  exact ⟨m + n, by push_cast; ring⟩

theorem twoDec_sum {L : List ℚ} (h : ∀ x ∈ L, TwoDec x) : TwoDec L.sum := by
  induction L with
  | nil => exact ⟨0, by norm_num⟩
  | cons x xs ih =>
      rw [List.sum_cons]
      exact twoDec_add (h x (by simp)) (ih fun y hy => h y (by simp [hy]))

/-! ## C7: unit-size recommender -/

/-- C7: for every input `b`,
`computeUnitSize b = min 10000 (max 0 (⌊(b × 0.05) / 50⌋ × 50))`, and in
particular `computeUnitSize 0 = 0`, `computeUnitSize (-500) = 0`,
`computeUnitSize 1000 = 50`, `computeUnitSize 1230 = 50`, and
`computeUnitSize 300000 = 10000`. -/
theorem computeUnitSize_spec :
    (∀ b : ℚ, computeUnitSize b = min 10000 (max 0 ((⌊b * 0.05 / 50⌋ : ℚ) * 50))) ∧
    computeUnitSize 0 = 0 ∧
    computeUnitSize (-500) = 0 ∧
    computeUnitSize 1000 = 50 ∧
    computeUnitSize 1230 = 50 ∧
    computeUnitSize 300000 = 10000 := by
  refine ⟨fun b => rfl, ?_, ?_, ?_, ?_, ?_⟩ <;> norm_num [computeUnitSize]

/-! ## C2: odds conversion -/

/-- C2: `americanToDecimal` returns `1 + odds/100` for every positive
finite odds, `1 + 100/|odds|` for every negative finite odds, and fails
with the invalid-odds error exactly when the input is `0` or non-finite
(the failure is returned as an `Except.error`, never defaulted). -/
theorem americanToDecimal_spec :
    (∀ a : ℚ, 0 < a → americanToDecimal (some a) = .ok (1 + a / 100)) ∧
    (∀ a : ℚ, a < 0 → americanToDecimal (some a) = .ok (1 + 100 / |a|)) ∧
    (∀ x : Option ℚ,
      americanToDecimal x = .error "Invalid American odds" ↔ (x = none ∨ x = some 0)) := by
  refine ⟨fun a ha => americanToDecimal_pos ha, fun a ha => americanToDecimal_neg ha, ?_⟩
  · intro x
    match x with
    | none => simp [americanToDecimal]
    | some a =>
        by_cases h0 : a = 0
        · subst h0; simp [americanToDecimal]
        · rw [americanToDecimal_some h0]
          simp [h0]

/-- Witness for C2 at concrete inputs `+150`, `-110`, `0` and a
non-finite value. -/
theorem americanToDecimal_spec_witness :
    americanToDecimal (some 150) = .ok (1 + 150 / 100) ∧
    americanToDecimal (some (-110)) = .ok (1 + 100 / |(-110 : ℚ)|) ∧
    (americanToDecimal (some 0) = .error "Invalid American odds" ↔
      (some (0 : ℚ) = none ∨ some (0 : ℚ) = some 0)) ∧
    (americanToDecimal none = .error "Invalid American odds" ↔
      ((none : Option ℚ) = none ∨ (none : Option ℚ) = some 0)) :=
  ⟨americanToDecimal_spec.1 150 (by norm_num),
   americanToDecimal_spec.2.1 (-110) (by norm_num),
   americanToDecimal_spec.2.2 (some 0),
   americanToDecimal_spec.2.2 none⟩

/-! ## C9: odds monotonicity

The spec claims that for `o1 < o2` both negative,
`decimal o1 > decimal o2`.  The code gives the opposite: a less
negative odds has a **higher** multiplier (which is also what the
spec's own parenthetical "less negative = higher payout" describes), so
`decimal o1 < decimal o2` on the negative side as well. -/

/-- C9 counterexample: at `o1 = -200 < o2 = -110` the code yields
`decimal(-200) = 3/2 < decimal(-110) = 21/11`, refuting the claimed
`decimal o1 > decimal o2` for negative pairs. -/
theorem americanToDecimal_neg_pair_counterexample :
    americanToDecimal (some (-200)) = .ok (3 / 2) ∧
    americanToDecimal (some (-110)) = .ok (21 / 11) ∧
    ¬ ((3 / 2 : ℚ) > 21 / 11) := by
  refine ⟨?_, ?_, by norm_num⟩ <;> · simp [americanToDecimal]; norm_num

/-- C9 (amended): `americanToDecimal` is strictly increasing on each
sign domain: for `o1 < o2` both positive, `decimal o1 < decimal o2`;
for `o1 < o2` both negative, `decimal o1 < decimal o2` (less negative =
higher payout); `decimal 0` always fails. -/
theorem americanToDecimal_monotone :
    (∀ o1 o2 d1 d2 : ℚ, 0 < o1 → o1 < o2 →
      americanToDecimal (some o1) = .ok d1 → americanToDecimal (some o2) = .ok d2 →
      d1 < d2) ∧
    (∀ o1 o2 d1 d2 : ℚ, o1 < o2 → o2 < 0 →
      americanToDecimal (some o1) = .ok d1 → americanToDecimal (some o2) = .ok d2 →
      d1 < d2) ∧
    americanToDecimal (some 0) = .error "Invalid American odds" := by
  refine ⟨?_, ?_, by simp [americanToDecimal]⟩
  · intro o1 o2 d1 d2 h1 h12 e1 e2
    rw [americanToDecimal_pos h1] at e1
    rw [americanToDecimal_pos (h1.trans h12)] at e2
    cases e1; cases e2
    linarith
  · intro o1 o2 d1 d2 h12 h2 e1 e2
    have h1 : o1 < 0 := h12.trans h2
    rw [americanToDecimal_neg h1] at e1
    rw [americanToDecimal_neg h2] at e2
    cases e1; cases e2
    have hlt : 100 / |o1| < 100 / |o2| := by
      rw [abs_of_neg h1, abs_of_neg h2]
      exact div_lt_div_of_pos_left (by norm_num) (by linarith) (by linarith)
    linarith

/-- Witness for C9 (amended) at `100 < 150` and `-200 < -110`. -/
theorem americanToDecimal_monotone_witness :
    ((1 + (100 : ℚ) / 100) < 1 + 150 / 100) ∧
    ((1 + (100 : ℚ) / |(-200 : ℚ)|) < 1 + 100 / |(-110 : ℚ)|) :=
  ⟨americanToDecimal_monotone.1 100 150 _ _ (by norm_num) (by norm_num)
      (americanToDecimal_pos (by norm_num))
      (americanToDecimal_pos (by norm_num)),
   americanToDecimal_monotone.2.1 (-200) (-110) _ _ (by norm_num) (by norm_num)
      (americanToDecimal_neg (by norm_num))
      (americanToDecimal_neg (by norm_num))⟩

/-! ## C4 / C10: parlay status derivation -/

/-- Rule 1: any lost leg makes the parlay lost. -/
theorem dps_lost_rule (legs : List LegDraft) (h : ∃ l ∈ legs, l.status = .llost) :
    derivedParlayStatus .parlay legs = some .tlost := by
  have hb : (legs.any fun l => l.status == .llost) = true := by
    simpa [List.any_eq_true] using h
  simp [derivedParlayStatus, hb]

/-- Rule 2: no lost leg but some open leg makes the parlay open. -/
theorem dps_open_rule (legs : List LegDraft) (h1 : ¬ ∃ l ∈ legs, l.status = .llost)
    (h2 : ∃ l ∈ legs, l.status = .lopen) :
    derivedParlayStatus .parlay legs = some .topen := by
  have hb1 : (legs.any fun l => l.status == .llost) = false := by
    simpa [List.any_eq_true, List.eq_nil_iff_forall_not_mem] using h1
  have hb2 : (legs.all fun l => l.status != .lopen) = false := by
    obtain ⟨l, hl, hls⟩ := h2
    by_contra hc
    have := List.all_eq_true.mp (eq_true_of_ne_false hc) l hl
    simp [hls] at this
  simp [derivedParlayStatus, hb1, hb2]

/-- Rule 3: all legs settled, none lost, all void or push makes the
parlay push. -/
theorem dps_push_rule (legs : List LegDraft) (h1 : ¬ ∃ l ∈ legs, l.status = .llost)
    (h2 : ¬ ∃ l ∈ legs, l.status = .lopen)
    (h3 : ∀ l ∈ legs, l.status = .lvoid ∨ l.status = .lpush) :
    derivedParlayStatus .parlay legs = some .tpush := by
  have hb1 : (legs.any fun l => l.status == .llost) = false := by
    simpa [List.any_eq_true, List.eq_nil_iff_forall_not_mem] using h1
  have hb2 : (legs.all fun l => l.status != .lopen) = true := by
    rw [List.all_eq_true]
    intro l hl
    simp only [bne_iff_ne, ne_eq]
    exact fun he => h2 ⟨l, hl, he⟩
  have hb3 : (legs.all fun l => l.status == .lvoid || l.status == .lpush) = true := by
    rw [List.all_eq_true]
    intro l hl
    rcases h3 l hl with h | h <;> simp [h]
  simp [derivedParlayStatus, hb1, hb2, hb3]

/-- Rule 4: all legs settled, none lost, not all void/push, some leg
won makes the parlay won. -/
theorem dps_won_rule (legs : List LegDraft) (h1 : ¬ ∃ l ∈ legs, l.status = .llost)
    (h2 : ¬ ∃ l ∈ legs, l.status = .lopen)
    (h3 : ¬ ∀ l ∈ legs, l.status = .lvoid ∨ l.status = .lpush)
    (h4 : ∃ l ∈ legs, l.status = .lwon) :
    derivedParlayStatus .parlay legs = some .twon := by
  have hb1 : (legs.any fun l => l.status == .llost) = false := by
    simpa [List.any_eq_true, List.eq_nil_iff_forall_not_mem] using h1
  have hb2 : (legs.all fun l => l.status != .lopen) = true := by
    rw [List.all_eq_true]
    intro l hl
    simp only [bne_iff_ne, ne_eq]
    exact fun he => h2 ⟨l, hl, he⟩
  have hb3 : (legs.all fun l => l.status == .lvoid || l.status == .lpush) = false := by
    by_contra hc
    refine h3 fun l hl => ?_
    have := List.all_eq_true.mp (eq_true_of_ne_false hc) l hl
    simpa using this
  have hb4 : (legs.any fun l => l.status == .lwon) = true := by
    simpa [List.any_eq_true] using h4
  simp [derivedParlayStatus, hb1, hb2, hb3, hb4]

/-- C4: `derivedParlayStatus` evaluates its rules in strict precedence
order: any lost leg → `lost` (even with open legs remaining); otherwise
any open leg → `open`; otherwise all void/push → `push`; otherwise any
won leg → `won`.  In particular `[won, lost, open]` derives `lost`. -/
theorem derivedParlayStatus_precedence :
    (∀ legs : List LegDraft, (∃ l ∈ legs, l.status = .llost) →
      derivedParlayStatus .parlay legs = some .tlost) ∧
    (∀ legs : List LegDraft, (¬ ∃ l ∈ legs, l.status = .llost) →
      (∃ l ∈ legs, l.status = .lopen) →
      derivedParlayStatus .parlay legs = some .topen) ∧
    (∀ legs : List LegDraft, (¬ ∃ l ∈ legs, l.status = .llost) →
      (¬ ∃ l ∈ legs, l.status = .lopen) →
      (∀ l ∈ legs, l.status = .lvoid ∨ l.status = .lpush) →
      derivedParlayStatus .parlay legs = some .tpush) ∧
    (∀ legs : List LegDraft, (¬ ∃ l ∈ legs, l.status = .llost) →
      (¬ ∃ l ∈ legs, l.status = .lopen) →
      (¬ ∀ l ∈ legs, l.status = .lvoid ∨ l.status = .lpush) →
      (∃ l ∈ legs, l.status = .lwon) →
      derivedParlayStatus .parlay legs = some .twon) ∧
    derivedParlayStatus .parlay
      [⟨"a", some (-110), .lwon⟩, ⟨"b", some 120, .llost⟩, ⟨"c", some 130, .lopen⟩]
      = some .tlost :=
  ⟨dps_lost_rule, dps_open_rule, dps_push_rule, dps_won_rule, by decide⟩

/-- Witness for C4 at concrete leg lists. -/
theorem derivedParlayStatus_precedence_witness :
    derivedParlayStatus .parlay [⟨"a", some (-110), .llost⟩, ⟨"b", some 120, .lopen⟩]
        = some .tlost ∧
    derivedParlayStatus .parlay [⟨"a", some (-110), .lwon⟩, ⟨"b", some 120, .lopen⟩]
        = some .topen ∧
    derivedParlayStatus .parlay [⟨"a", some (-110), .lvoid⟩, ⟨"b", some 120, .lpush⟩]
        = some .tpush ∧
    derivedParlayStatus .parlay [⟨"a", some (-110), .lwon⟩, ⟨"b", some 120, .lpush⟩]
        = some .twon :=
  ⟨derivedParlayStatus_precedence.1 _ ⟨⟨"a", some (-110), .llost⟩, by simp, rfl⟩,
   derivedParlayStatus_precedence.2.1 _ (by simp) ⟨⟨"b", some 120, .lopen⟩, by simp, rfl⟩,
   derivedParlayStatus_precedence.2.2.1 _ (by simp) (by simp) (by simp),
   derivedParlayStatus_precedence.2.2.2.1 _ (by simp) (by simp) (by simp
     )
     ⟨⟨"a", some (-110), .lwon⟩, by simp, rfl⟩⟩

/-- C10: `derivedParlayStatus` on a parlay always returns one of
`lost`, `open`, `push`, `won`; on the empty leg list the all-void-push
rule fires (vacuously) giving `push`; and whenever all legs are
settled, none lost and not all void/push, some leg is won and the won
rule fires — so the defensive final `return "push"` is unreachable. -/
theorem derivedParlayStatus_fallback_unreachable :
    derivedParlayStatus .parlay [] = some .tpush ∧
    (∀ legs : List LegDraft,
      derivedParlayStatus .parlay legs = some .tlost ∨
      derivedParlayStatus .parlay legs = some .topen ∨
      derivedParlayStatus .parlay legs = some .tpush ∨
      derivedParlayStatus .parlay legs = some .twon) ∧
    (∀ legs : List LegDraft, (¬ ∃ l ∈ legs, l.status = .llost) →
      (∀ l ∈ legs, l.status ≠ .lopen) →
      (¬ ∀ l ∈ legs, l.status = .lvoid ∨ l.status = .lpush) →
      (∃ l ∈ legs, l.status = .lwon) ∧
        derivedParlayStatus .parlay legs = some .twon) := by
  refine ⟨by decide, ?_, ?_⟩
  · intro legs
    unfold derivedParlayStatus
    split
    · simp_all
    · split
      · exact .inl rfl
      · split
        · exact .inr (.inl rfl)
        · split
          · exact .inr (.inr (.inl rfl))
          · split
            · exact .inr (.inr (.inr rfl))
            · exact .inr (.inr (.inl rfl))
  · intro legs h1 h2 h3
    have hwon : ∃ l ∈ legs, l.status = .lwon := by
      rw [not_forall] at h3
      obtain ⟨l, hl⟩ := h3
      rw [Classical.not_imp] at hl
      obtain ⟨hmem, hnvp⟩ := hl
      refine ⟨l, hmem, ?_⟩
      cases hs : l.status
      · exact absurd hs (h2 l hmem)
      · rfl
      · exact absurd ⟨l, hmem, hs⟩ h1
      · exact absurd (Or.inr hs) hnvp
      · exact absurd (Or.inl hs) hnvp
    exact ⟨hwon, dps_won_rule legs h1 (fun ⟨l, hl, he⟩ => h2 l hl he) h3 hwon⟩

/-- Witness for C10 at a concrete settled leg list with a won leg. -/
theorem derivedParlayStatus_fallback_unreachable_witness :
    (∃ l ∈ ([⟨"a", some (-110), .lwon⟩, ⟨"b", some 120, .lpush⟩] : List LegDraft),
       l.status = .lwon) ∧
    derivedParlayStatus .parlay [⟨"a", some (-110), .lwon⟩, ⟨"b", some 120, .lpush⟩]
      = some .twon :=
  derivedParlayStatus_fallback_unreachable.2.2
    [⟨"a", some (-110), .lwon⟩, ⟨"b", some 120, .lpush⟩]
    (by decide) (by decide) (by decide)

/-! ## C1: settlement case table (no override) -/

/-- C1: with no payout override, `computePayoutProfitForCreate`
returns exactly the case table: open/partial → both null, no
timestamp; push/void → payout `round2 stake`, profit `0`; lost →
payout `0`, profit `round2 (-stake)`; won → payout
`round2 (stake × multiplier)` and profit obtained by subtracting the
stake from the already-rounded payout and rounding again.  For a
parlay the status is the derived status (defaulting to open) and the
multiplier is `winMultiplier`.  In particular a won single with
stake 100 at odds −110 settles at payout 190.91, profit 90.91. -/
theorem computePayoutProfitForCreate_table :
    (∀ (stake : ℚ) (legs : List LegDraft) (dps : Option TicketStatus) (st : TicketStatus),
      st = .topen ∨ st = .tpart →
      computePayoutProfitForCreate .single stake st legs none dps = .ok ⟨none, none, none⟩) ∧
    (∀ (stake : ℚ) (legs : List LegDraft) (dps : Option TicketStatus) (st : TicketStatus),
      st = .tpush ∨ st = .tvoid →
      computePayoutProfitForCreate .single stake st legs none dps =
        .ok ⟨some (round2 stake), some 0, some "SET_NOW"⟩) ∧
    (∀ (stake : ℚ) (legs : List LegDraft) (dps : Option TicketStatus),
      computePayoutProfitForCreate .single stake .tlost legs none dps =
        .ok ⟨some 0, some (round2 (-stake)), some "SET_NOW"⟩) ∧
    (∀ (stake : ℚ) (legs : List LegDraft) (dps : Option TicketStatus) (dec : ℚ),
      americanToDecimal ((legs.head?).bind LegDraft.american_odds) = .ok dec →
      computePayoutProfitForCreate .single stake .twon legs none dps =
        .ok ⟨some (round2 (stake * dec)),
             some (round2 (round2 (stake * dec) - stake)), some "SET_NOW"⟩) ∧
    (∀ (stake : ℚ) (st : TicketStatus) (legs : List LegDraft) (dps : Option TicketStatus),
      dps.getD .topen = .topen →
      computePayoutProfitForCreate .parlay stake st legs none dps = .ok ⟨none, none, none⟩) ∧
    (∀ (stake : ℚ) (st : TicketStatus) (legs : List LegDraft) (dps : Option TicketStatus),
      dps.getD .topen = .tpush ∨ dps.getD .topen = .tvoid →
      computePayoutProfitForCreate .parlay stake st legs none dps =
        .ok ⟨some (round2 stake), some 0, some "SET_NOW"⟩) ∧
    (∀ (stake : ℚ) (st : TicketStatus) (legs : List LegDraft) (dps : Option TicketStatus),
      dps.getD .topen = .tlost →
      computePayoutProfitForCreate .parlay stake st legs none dps =
        .ok ⟨some 0, some (round2 (-stake)), some "SET_NOW"⟩) ∧
    (∀ (stake : ℚ) (st : TicketStatus) (legs : List LegDraft) (dps : Option TicketStatus)
        (wm : ℚ),
      dps.getD .topen = .twon → winMultiplier legs = .ok wm →
      computePayoutProfitForCreate .parlay stake st legs none dps =
        .ok ⟨some (round2 (stake * wm)),
             some (round2 (round2 (stake * wm) - stake)), some "SET_NOW"⟩) ∧
    computePayoutProfitForCreate .single 100 .twon [⟨"sel", some (-110), .lwon⟩] none none =
      .ok ⟨some 190.91, some 90.91, some "SET_NOW"⟩ := by
  refine ⟨?_, ?_, ?_, ?_, ?_, ?_, ?_, ?_, ?_⟩
  · rintro stake legs dps st (rfl | rfl) <;> simp [computePayoutProfitForCreate]
  · rintro stake legs dps st (rfl | rfl) <;> simp [computePayoutProfitForCreate]
  · intro stake legs dps
    simp [computePayoutProfitForCreate, zero_sub]
  · intro stake legs dps dec hdec
    simp [computePayoutProfitForCreate, hdec]
  · intro stake st legs dps h
    simp [computePayoutProfitForCreate, h]
  · rintro stake st legs dps (h | h) <;> simp [computePayoutProfitForCreate, h]
  · intro stake st legs dps h
    simp [computePayoutProfitForCreate, h, zero_sub]
  · intro stake st legs dps wm h hw
    simp [computePayoutProfitForCreate, h, hw]
  · simp [computePayoutProfitForCreate, americanToDecimal, round2]
    norm_num

/-- Witness for C1 at concrete inputs covering every settlement row. -/
theorem computePayoutProfitForCreate_table_witness :
    computePayoutProfitForCreate .single 50 .topen [] none none = .ok ⟨none, none, none⟩ ∧
    computePayoutProfitForCreate .single 50 .tpush [] none none =
      .ok ⟨some (round2 50), some 0, some "SET_NOW"⟩ ∧
    computePayoutProfitForCreate .single 50 .tlost [] none none =
      .ok ⟨some 0, some (round2 (-50)), some "SET_NOW"⟩ ∧
    computePayoutProfitForCreate .single 100 .twon [⟨"sel", some 150, .lwon⟩] none none =
      .ok ⟨some (round2 (100 * (1 + 150 / 100))),
           some (round2 (round2 (100 * (1 + 150 / 100)) - 100)), some "SET_NOW"⟩ ∧
    computePayoutProfitForCreate .parlay 50 .topen [] none (some .topen) =
      .ok ⟨none, none, none⟩ ∧
    computePayoutProfitForCreate .parlay 50 .tpush [] none (some .tvoid) =
      .ok ⟨some (round2 50), some 0, some "SET_NOW"⟩ ∧
    computePayoutProfitForCreate .parlay 50 .tlost [] none (some .tlost) =
      .ok ⟨some 0, some (round2 (-50)), some "SET_NOW"⟩ ∧
    computePayoutProfitForCreate .parlay 50 .twon
        [⟨"a", some (-110), .lwon⟩, ⟨"b", some 120, .lpush⟩] none (some .twon) =
      .ok ⟨some (round2 (50 * (1 * (1 + 100 / |(-110 : ℚ)|)))),
           some (round2 (round2 (50 * (1 * (1 + 100 / |(-110 : ℚ)|))) - 50)),
           some "SET_NOW"⟩ :=
  ⟨computePayoutProfitForCreate_table.1 50 [] none .topen (Or.inl rfl),
   computePayoutProfitForCreate_table.2.1 50 [] none .tpush (Or.inl rfl),
   computePayoutProfitForCreate_table.2.2.1 50 [] none,
   computePayoutProfitForCreate_table.2.2.2.1 100 [⟨"sel", some 150, .lwon⟩] none _
     (by simp [americanToDecimal]),
   computePayoutProfitForCreate_table.2.2.2.2.1 50 .topen [] (some .topen) rfl,
   computePayoutProfitForCreate_table.2.2.2.2.2.1 50 .tpush [] (some .tvoid) (Or.inr rfl),
   computePayoutProfitForCreate_table.2.2.2.2.2.2.1 50 .tlost [] (some .tlost) rfl,
   computePayoutProfitForCreate_table.2.2.2.2.2.2.2.1 50 .twon
     [⟨"a", some (-110), .lwon⟩, ⟨"b", some 120, .lpush⟩] (some .twon) _ rfl
     (by norm_num [winMultiplier, winMultiplierAux, americanToDecimal]; decide)⟩

/-! ## C6: manual payout override

The override branch itself records payout and profit for every ticket
type, status and leg list.  But the claim's timestamp sentence fails
twice: the saved settlement timestamp is **not** the wall-clock "now"
— both the create screen (`src/app/new/page.tsx` line 348) and the
edit screen (`src/app/ticket/[id]/page.tsx` line 1035) write the
placed-at instant (local midnight of the placed date) — and on the
edit screen the timestamp is withheld for status `partial` as well,
not only for `open`. -/

/-- C6 counterexample: (a) a won single created with override 250 and
placed date 2026-01-01 stores `settled_at = 2026-01-01T00:00:00.000Z`
— the placed-at instant — which differs from the concrete creation
instant, refuting "the settlement timestamp is set to now"; and (b) on
the edit screen a partial-status single with the same override records
payout 250 and profit 150 but stores `settled_at = null` although
`partial ≠ open`, refuting "set ... unless the status is open". -/
theorem settledAt_now_counterexample :
    computePayoutProfitForCreate .single 100 .twon [⟨"sel", some (-110), .lopen⟩]
        (some (some 250)) none = .ok ⟨some 250, some 150, some "SET_NOW"⟩ ∧
    settledAtIsoForCreate ⟨some 250, some 150, some "SET_NOW"⟩ "2026-01-01T00:00:00.000Z"
        = some "2026-01-01T00:00:00.000Z" ∧
    ("2026-01-01T00:00:00.000Z" : String) ≠ "2026-10-11T12:00:00.000Z" ∧
    computedPayoutProfit .single 100 .tpart none [⟨"sel", some (-110), .lpush⟩] true
        (some (some 250)) = .ok (some 250, some 150) ∧
    settledAtIsoForEdit .tpart "2026-01-01T00:00:00.000Z" = none ∧
    TicketStatus.tpart ≠ .topen := by
  refine ⟨?_, by simp [settledAtIsoForCreate], by decide, ?_,
          by simp [settledAtIsoForEdit], by decide⟩
  · simp [computePayoutProfitForCreate, round2]
    norm_num
  · simp [computedPayoutProfit, round2]
    norm_num

/-- C6 (amended): when the payout override is a finite number,
settlement returns `payout = round2 override` and
`profit = round2 (payout - stake)` regardless of ticket type, status
and legs; on the create screen the settlement-timestamp policy fires
unless the status is `open`, and on the edit screen the timestamp is
written unless the status is `open` **or `partial`**; whenever the
timestamp is withheld, `settled_at` stays null while payout and profit
are still recorded; and the timestamp actually written is the ticket's
placed-at instant, not the wall-clock now. -/
theorem payoutOverride_spec :
    (∀ (tt : TicketType) (stake ov : ℚ) (st : TicketStatus) (legs : List LegDraft)
        (dps : Option TicketStatus),
      computePayoutProfitForCreate tt stake st legs (some (some ov)) dps =
        .ok ⟨some (round2 ov), some (round2 (round2 ov - stake)),
             if st = .topen then none else some "SET_NOW"⟩) ∧
    (∀ (stake ov : ℚ) (st : TicketStatus) (placedAtIso : String),
      settledAtIsoForCreate
          ⟨some (round2 ov), some (round2 (round2 ov - stake)),
           if st = .topen then none else some "SET_NOW"⟩ placedAtIso =
        if st = .topen then none else some placedAtIso) ∧
    (∀ (tt : TicketType) (stakeNum ov : ℚ) (st : TicketStatus)
        (dps : Option TicketStatus) (legs : List LegDraft),
      computedPayoutProfit tt stakeNum st dps legs true (some (some ov)) =
        .ok (some (round2 ov), some (round2 (round2 ov - stakeNum)))) ∧
    (∀ (st : TicketStatus) (placedAtIso : String),
      settledAtIsoForEdit st placedAtIso =
        if st = .topen ∨ st = .tpart then none else some placedAtIso) := by
  refine ⟨?_, ?_, ?_, fun st p => rfl⟩
  · intro tt stake ov st legs dps
    rfl
  · intro stake ov st placedAtIso
    by_cases h : st = .topen <;> simp [settledAtIsoForCreate, h]
  · intro tt stakeNum ov st dps legs
    rfl

/-! ## C3: push/void legs are odds-neutral -/

/-- Replacing the odds of a push/void leg anywhere in the list leaves
the resolver loop unchanged: such a leg is skipped before its odds are
read. -/
theorem parlayLoopAux_replace (pre post : List LegDraft) (sel : String)
    (a a' : Option ℚ) (st : LegStatus) (hst : st = .lpush ∨ st = .lvoid) (acc : ℚ) :
    parlayLoopAux (pre ++ ⟨sel, a, st⟩ :: post) acc =
      parlayLoopAux (pre ++ ⟨sel, a', st⟩ :: post) acc := by
  induction pre generalizing acc with
  | nil =>
      rcases hst with rfl | rfl <;> simp [parlayLoopAux]
  | cons p ps ih =>
      simp only [List.cons_append, parlayLoopAux]
      split
      · exact ih acc
      · cases p.american_odds with
        | none => rfl
        | some q =>
            by_cases hq : q = 0
            · simp [hq]
            · simp only [hq, if_false]
              exact ih _

/-- Same statement for the settlement calculation's `winMultiplier`
reduce. -/
theorem winMultiplierAux_replace (pre post : List LegDraft) (sel : String)
    (a a' : Option ℚ) (st : LegStatus) (hst : st = .lpush ∨ st = .lvoid) (acc : ℚ) :
    winMultiplierAux (pre ++ ⟨sel, a, st⟩ :: post) acc =
      winMultiplierAux (pre ++ ⟨sel, a', st⟩ :: post) acc := by
  induction pre generalizing acc with
  | nil =>
      rcases hst with rfl | rfl <;> simp [winMultiplierAux]
  | cons p ps ih =>
      simp only [List.cons_append, winMultiplierAux]
      split
      · exact ih _
      · cases americanToDecimal p.american_odds with
        | error e => rfl
        | ok dec => exact ih _

/-- C3: the resolved parlay multiplier (and validity flag), and the
settlement `winMultiplier`, are unchanged when the odds of a leg whose
status is push or void are replaced by any other value. -/
theorem pushLeg_odds_neutral (pre post : List LegDraft) (sel : String)
    (a a' : Option ℚ) (st : LegStatus) (hst : st = .lpush ∨ st = .lvoid) :
    resolveMultiplier .parlay (pre ++ ⟨sel, a, st⟩ :: post) =
      resolveMultiplier .parlay (pre ++ ⟨sel, a', st⟩ :: post) ∧
    winMultiplier (pre ++ ⟨sel, a, st⟩ :: post) =
      winMultiplier (pre ++ ⟨sel, a', st⟩ :: post) := by
  constructor
  · have hlen : (pre ++ (⟨sel, a, st⟩ : LegDraft) :: post).length =
        (pre ++ (⟨sel, a', st⟩ : LegDraft) :: post).length := by simp
    simp only [resolveMultiplier]
    rw [hlen, parlayLoopAux_replace pre post sel a a' st hst 1]
  · exact winMultiplierAux_replace pre post sel a a' st hst 1

/-- Witness for C3: legs `[-110 (open), +150 (push)]` and
`[-110 (open), +999 (push)]` resolve to the same multiplier. -/
theorem pushLeg_odds_neutral_witness :
    resolveMultiplier .parlay
        [⟨"a", some (-110), .lopen⟩, ⟨"b", some 150, .lpush⟩] =
      resolveMultiplier .parlay
        [⟨"a", some (-110), .lopen⟩, ⟨"b", some 999, .lpush⟩] ∧
    winMultiplier [⟨"a", some (-110), .lopen⟩, ⟨"b", some 150, .lpush⟩] =
      winMultiplier [⟨"a", some (-110), .lopen⟩, ⟨"b", some 999, .lpush⟩] :=
  pushLeg_odds_neutral [⟨"a", some (-110), .lopen⟩] [] "b" (some 150) (some 999)
    .lpush (Or.inl rfl)

/-! ## C8: resolver validity -/

/-- Unfolding: a push/void head is skipped. -/
theorem parlayLoopAux_cons_skip {l : LegDraft} {rest : List LegDraft} {m : ℚ}
    (h : (l.status == .lpush || l.status == .lvoid) = true) :
    parlayLoopAux (l :: rest) m = parlayLoopAux rest m := by
  simp [parlayLoopAux, h]

/-- Unfolding: a non-skipped head with non-finite odds aborts. -/
theorem parlayLoopAux_cons_nofin {l : LegDraft} {rest : List LegDraft} {m : ℚ}
    (h1 : (l.status == .lpush || l.status == .lvoid) = false)
    (h2 : l.american_odds = none) :
    parlayLoopAux (l :: rest) m = none := by
  simp [parlayLoopAux, h1, h2]

/-- Unfolding: a non-skipped head with finite odds `q` checks `q = 0`
and otherwise multiplies the accumulator. -/
theorem parlayLoopAux_cons_some {l : LegDraft} {rest : List LegDraft} {m q : ℚ}
    (h1 : (l.status == .lpush || l.status == .lvoid) = false)
    (h2 : l.american_odds = some q) :
    parlayLoopAux (l :: rest) m =
      if q = 0 then none else parlayLoopAux rest (m * americanToDecimalV q) := by
  simp [parlayLoopAux, h1, h2]

/-- The parlay loop aborts exactly when some non-push/void leg has
non-finite or zero odds (push/void legs are never inspected). -/
theorem parlayLoopAux_none_iff (legs : List LegDraft) (acc : ℚ) :
    parlayLoopAux legs acc = none ↔
      ∃ l ∈ legs, (l.status ≠ .lpush ∧ l.status ≠ .lvoid) ∧
        (l.american_odds = none ∨ l.american_odds = some 0) := by
  induction legs generalizing acc with
  | nil => simp [parlayLoopAux]
  | cons l rest ih =>
      by_cases hskip : (l.status == .lpush || l.status == .lvoid) = true
      · rw [parlayLoopAux_cons_skip hskip, ih]
        have hs : l.status = .lpush ∨ l.status = .lvoid := by simpa using hskip
        constructor
        · rintro ⟨x, hx, hc⟩
          exact ⟨x, List.mem_cons_of_mem _ hx, hc⟩
        · rintro ⟨x, hx, hcond, hodds⟩
          rcases List.mem_cons.mp hx with rfl | hx'
          · rcases hs with h | h
            · exact absurd h hcond.1
            · exact absurd h hcond.2
          · exact ⟨x, hx', hcond, hodds⟩
      · have hskipf : (l.status == .lpush || l.status == .lvoid) = false :=
          Bool.eq_false_iff.mpr hskip
        have hs : l.status ≠ .lpush ∧ l.status ≠ .lvoid := by
          simpa [not_or] using hskip
        cases ho : l.american_odds with
        | none =>
            rw [parlayLoopAux_cons_nofin hskipf ho]
            constructor
            · intro _
              exact ⟨l, List.mem_cons_self l rest, hs, Or.inl ho⟩
            · intro _; rfl
        | some q =>
            rw [parlayLoopAux_cons_some hskipf ho]
            by_cases hq : q = 0
            · rw [if_pos hq]
              constructor
              · intro _
                exact ⟨l, List.mem_cons_self l rest, hs, Or.inr (by rw [ho, hq])⟩
              · intro _; rfl
            · rw [if_neg hq, ih]
              constructor
              · rintro ⟨x, hx, hc⟩
                exact ⟨x, List.mem_cons_of_mem _ hx, hc⟩
              · rintro ⟨x, hx, hcond, hodds⟩
                rcases List.mem_cons.mp hx with rfl | hx'
                · rcases hodds with h | h
                  · rw [ho] at h; cases h
                  · rw [ho] at h
                    injection h with h
                    exact absurd h hq
                · exact ⟨x, hx', hcond, hodds⟩

/-- When the loop succeeds from a positive accumulator, the result is
at least the accumulator, and strictly larger as soon as some leg is
not push/void. -/
theorem parlayLoopAux_some_bounds (legs : List LegDraft) (acc m : ℚ)
    (h : parlayLoopAux legs acc = some m) (hacc : 0 < acc) :
    acc ≤ m ∧ ((∃ l ∈ legs, l.status ≠ .lpush ∧ l.status ≠ .lvoid) → acc < m) := by
  induction legs generalizing acc with
  | nil =>
      simp only [parlayLoopAux, Option.some.injEq] at h
      subst h
      refine ⟨le_refl _, ?_⟩
      rintro ⟨x, hx, _⟩
      simp at hx
  | cons l rest ih =>
      by_cases hskip : (l.status == .lpush || l.status == .lvoid) = true
      · rw [parlayLoopAux_cons_skip hskip] at h
        obtain ⟨h1, h2⟩ := ih acc h hacc
        refine ⟨h1, ?_⟩
        rintro ⟨x, hx, hc⟩
        rcases List.mem_cons.mp hx with rfl | hx'
        · have hs : x.status = .lpush ∨ x.status = .lvoid := by simpa using hskip
          rcases hs with hh | hh
          · exact absurd hh hc.1
          · exact absurd hh hc.2
        · exact h2 ⟨x, hx', hc⟩
      · have hskipf : (l.status == .lpush || l.status == .lvoid) = false :=
          Bool.eq_false_iff.mpr hskip
        cases ho : l.american_odds with
        | none => rw [parlayLoopAux_cons_nofin hskipf ho] at h; cases h
        | some q =>
            rw [parlayLoopAux_cons_some hskipf ho] at h
            by_cases hq : q = 0
            · rw [if_pos hq] at h; cases h
            · rw [if_neg hq] at h
              have hdec : 1 < americanToDecimalV q := one_lt_americanToDecimalV hq
              have hacc' : 0 < acc * americanToDecimalV q :=
                mul_pos hacc (lt_trans one_pos hdec)
              obtain ⟨h1, _⟩ := ih _ h hacc'
              have hlt : acc < acc * americanToDecimalV q := by nlinarith
              exact ⟨le_of_lt (lt_of_lt_of_le hlt h1),
                     fun _ => lt_of_lt_of_le hlt h1⟩

/-- A list of only push/void legs leaves the accumulator untouched. -/
theorem parlayLoopAux_all_skipped (legs : List LegDraft) (acc : ℚ)
    (h : ∀ l ∈ legs, l.status = .lpush ∨ l.status = .lvoid) :
    parlayLoopAux legs acc = some acc := by
  induction legs with
  | nil => rfl
  | cons l rest ih =>
      have hl := h l (List.mem_cons_self l rest)
      have hrest := ih fun x hx => h x (List.mem_cons_of_mem _ hx)
      rcases hl with hh | hh <;> simp [parlayLoopAux, hh, hrest]

/-- If every non-push/void leg has finite nonzero odds the loop
succeeds. -/
theorem parlayLoopAux_isSome (legs : List LegDraft) (acc : ℚ)
    (h : ∀ l ∈ legs, (l.status ≠ .lpush ∧ l.status ≠ .lvoid) →
      ∃ q, l.american_odds = some q ∧ q ≠ 0) :
    ∃ m, parlayLoopAux legs acc = some m := by
  cases hm : parlayLoopAux legs acc with
  | none =>
      obtain ⟨l, hl, hcond, hodds⟩ := (parlayLoopAux_none_iff legs acc).mp hm
      obtain ⟨q, hq, hq0⟩ := h l hl hcond
      rcases hodds with hh | hh
      · rw [hq] at hh; cases hh
      · rw [hq] at hh
        injection hh with hh
        exact absurd hh hq0
  | some m => exact ⟨m, rfl⟩

/-- C8 counterexample: the parlay `[-110 (open), 0 (push)]` is marked
valid by the resolver although its push leg's odds are `0` — push/void
legs' odds are never validated, refuting "valid iff at least two legs
**all** with finite nonzero odds". -/
theorem resolveMultiplier_valid_counterexample :
    (resolveMultiplier .parlay
        [⟨"a", some (-110), .lopen⟩, ⟨"b", some 0, .lpush⟩]).2 = true ∧
    ¬ (∀ l ∈ ([⟨"a", some (-110), .lopen⟩, ⟨"b", some 0, .lpush⟩] : List LegDraft),
        ∃ q, l.american_odds = some q ∧ q ≠ 0) := by
  constructor
  · have h1 : parlayLoopAux [⟨"a", some (-110), .lopen⟩, ⟨"b", some 0, .lpush⟩] 1
        = some (1 * americanToDecimalV (-110)) := by
      rw [parlayLoopAux_cons_some (by decide) rfl, if_neg (by norm_num),
          parlayLoopAux_cons_skip (by decide)]
      rfl
    simp only [resolveMultiplier]
    rw [if_neg (by decide), h1]
    exact decide_eq_true (by norm_num [americanToDecimalV])
  · intro hall
    obtain ⟨q, hq, hq0⟩ := hall ⟨"b", some 0, .lpush⟩ (by simp)
    simp only [Option.some.injEq] at hq
    exact hq0 hq.symm

/-- C8 (amended): the parlay resolver returns `valid = true` iff there
are at least two legs, every **non-push/void** leg has finite nonzero
odds, and at least one leg is not push/void (an all-push/void parlay
has multiplier 1 and is marked invalid by the `m > 1` test; push/void
legs' odds are not checked).  The single resolver returns `valid =
true` iff there is exactly one leg and its odds are finite and
nonzero. -/
theorem resolveMultiplier_valid_iff :
    (∀ legs : List LegDraft,
      (resolveMultiplier .parlay legs).2 = true ↔
        (2 ≤ legs.length ∧
         (∀ l ∈ legs, (l.status ≠ .lpush ∧ l.status ≠ .lvoid) →
            ∃ q, l.american_odds = some q ∧ q ≠ 0) ∧
         (∃ l ∈ legs, l.status ≠ .lpush ∧ l.status ≠ .lvoid))) ∧
    (∀ legs : List LegDraft,
      (resolveMultiplier .single legs).2 = true ↔
        (∃ sel q st, legs = [⟨sel, some q, st⟩] ∧ q ≠ 0)) := by
  constructor
  · intro legs
    constructor
    · intro h
      simp only [resolveMultiplier] at h
      by_cases hlen : legs.length < 2
      · rw [if_pos hlen] at h; cases h
      · rw [if_neg hlen] at h
        cases hm : parlayLoopAux legs 1 with
        | none => rw [hm] at h; cases h
        | some m =>
            rw [hm] at h
            have hm1 : 1 < m := of_decide_eq_true h
            refine ⟨not_lt.mp hlen, ?_, ?_⟩
            · intro l hl hcond
              cases ho : l.american_odds with
              | none =>
                  have : parlayLoopAux legs 1 = none :=
                    (parlayLoopAux_none_iff legs 1).mpr ⟨l, hl, hcond, Or.inl ho⟩
                  rw [this] at hm; cases hm
              | some q =>
                  refine ⟨q, rfl, ?_⟩
                  intro hq0
                  subst hq0
                  have : parlayLoopAux legs 1 = none :=
                    (parlayLoopAux_none_iff legs 1).mpr ⟨l, hl, hcond, Or.inr ho⟩
                  rw [this] at hm; cases hm
            · by_contra hno
              push_neg at hno
              have hall : ∀ l ∈ legs, l.status = .lpush ∨ l.status = .lvoid := by
                intro l hl
                by_cases hp : l.status = .lpush
                · exact Or.inl hp
                · exact Or.inr (hno l hl hp)
              have h1 : parlayLoopAux legs 1 = some 1 :=
                parlayLoopAux_all_skipped legs 1 hall
              rw [h1] at hm
              injection hm with hm
              rw [← hm] at hm1
              exact absurd hm1 (lt_irrefl 1)
    · rintro ⟨hlen, hvalid, hex⟩
      simp only [resolveMultiplier]
      rw [if_neg (not_lt.mpr hlen)]
      obtain ⟨m, hm⟩ := parlayLoopAux_isSome legs 1 hvalid
      rw [hm]
      exact decide_eq_true ((parlayLoopAux_some_bounds legs 1 m hm one_pos).2 hex)
  · intro legs
    rcases legs with _ | ⟨⟨sel0, odds0, st0⟩, _ | ⟨l2, rest⟩⟩
    · constructor
      · intro h; cases h
      · rintro ⟨sel, q, st, heq, _⟩; cases heq
    · cases odds0 with
      | none =>
          constructor
          · intro h; cases h
          · rintro ⟨sel, q, st, heq, _⟩
            injection heq with h1 _
            injection h1 with _ hodds _
            cases hodds
      | some a =>
          constructor
          · intro h
            simp only [resolveMultiplier] at h
            by_cases ha : a = 0
            · rw [if_pos ha] at h; cases h
            · exact ⟨sel0, a, st0, rfl, ha⟩
          · rintro ⟨sel, q, st, heq, hq0⟩
            injection heq with h1 _
            injection h1 with _ hodds _
            injection hodds with hq
            subst hq
            simp only [resolveMultiplier]
            rw [if_neg hq0]
    · constructor
      · intro h; cases h
      · rintro ⟨sel, q, st, heq, _⟩
        injection heq with _ h2
        cases h2

/-! ## C5: all-time current bankroll -/

/-- The dashboard's fold over all tickets equals the settled-profit
sum. -/
theorem currentBankroll_foldl (tickets : List TicketRec) (acc : ℚ) :
    tickets.foldl
      (fun acc t =>
        if t.status == .topen then acc
        else
          let p := match t.profit with
            | some q => q
            | none => 0
          acc + p) acc = acc + settledProfitSum tickets := by
  induction tickets generalizing acc with
  | nil => simp [settledProfitSum]
  | cons t rest ih =>
      by_cases hst : t.status = .topen
      · simp only [List.foldl_cons, hst]
        rw [ih]
        simp [settledProfitSum, hst]
      · have hb : (t.status == .topen) = false := by
          simpa using hst
        simp only [List.foldl_cons, hb, Bool.false_eq_true, if_false]
        rw [ih]
        have : (t.status != .topen) = true := by simpa using hst
        simp only [settledProfitSum, List.filter_cons, this, List.map_cons,
          List.sum_cons, if_true]
        have hp : (match t.profit with | some q => q | none => 0) = profitOrZero t := rfl
        rw [hp]
        ring

/-- C5: the all-time current bankroll equals the starting bankroll
plus the sum of profit over all settled (status ≠ open) tickets —
exactly, once amounts are two-decimal values, and up to the final
`round2` in general — and it is independent of the date-range and
league filters, because it is computed from the unfiltered ticket
list. -/
theorem currentBankroll_consistency :
    (∀ (tickets : List TicketRec) (sb : ℚ) (f1 f2 : String)
        (r1 r2 : Option (String × String)),
      dashboardCurrentBankroll tickets sb f1 r1 = dashboardCurrentBankroll tickets sb f2 r2) ∧
    (∀ (tickets : List TicketRec) (sb : ℚ) (f : String) (r : Option (String × String)),
      dashboardCurrentBankroll tickets sb f r = round2 (sb + settledProfitSum tickets)) ∧
    (∀ (tickets : List TicketRec) (sb : ℚ),
      TwoDec sb → (∀ t ∈ tickets, TwoDec (profitOrZero t)) →
      currentBankroll tickets sb = sb + settledProfitSum tickets) := by
  refine ⟨fun _ _ _ _ _ _ => rfl, ?_, ?_⟩
  · intro tickets sb f r
    show currentBankroll tickets sb = _
    unfold currentBankroll
    rw [currentBankroll_foldl tickets 0, zero_add]
  · intro tickets sb hsb hts
    have h1 : currentBankroll tickets sb = round2 (sb + settledProfitSum tickets) := by
      unfold currentBankroll
      rw [currentBankroll_foldl tickets 0, zero_add]
    rw [h1]
    refine round2_eq_self (twoDec_add hsb ?_)
    refine twoDec_sum ?_
    intro x hx
    obtain ⟨t, ht, rfl⟩ := List.mem_map.mp hx
    exact hts t (List.mem_filter.mp ht).1

/-- Witness for C5: a concrete ledger with one open, one won, one lost
and one partial ticket, under two different filter settings. -/
theorem currentBankroll_consistency_witness :
    dashboardCurrentBankroll
        [⟨.single, 100, .twon, some 190.91, some 90.91, "2026-01-01T00:00:00.000Z", some "NBA"⟩,
         ⟨.single, 50, .tlost, some 0, some (-50), "2026-01-02T00:00:00.000Z", some "NHL"⟩,
         ⟨.single, 25, .topen, none, none, "2026-01-03T00:00:00.000Z", none⟩]
        1000 "ALL" none =
      dashboardCurrentBankroll
        [⟨.single, 100, .twon, some 190.91, some 90.91, "2026-01-01T00:00:00.000Z", some "NBA"⟩,
         ⟨.single, 50, .tlost, some 0, some (-50), "2026-01-02T00:00:00.000Z", some "NHL"⟩,
         ⟨.single, 25, .topen, none, none, "2026-01-03T00:00:00.000Z", none⟩]
        1000 "NBA" (some ("2026-01-01T00:00:00.000Z", "2026-01-02T00:00:00.000Z")) ∧
    currentBankroll
        [⟨.single, 100, .twon, some 190.91, some 90.91, "2026-01-01T00:00:00.000Z", some "NBA"⟩,
         ⟨.single, 50, .tlost, some 0, some (-50), "2026-01-02T00:00:00.000Z", some "NHL"⟩,
         ⟨.single, 25, .topen, none, none, "2026-01-03T00:00:00.000Z", none⟩]
        1000 =
      1000 + settledProfitSum
        [⟨.single, 100, .twon, some 190.91, some 90.91, "2026-01-01T00:00:00.000Z", some "NBA"⟩,
         ⟨.single, 50, .tlost, some 0, some (-50), "2026-01-02T00:00:00.000Z", some "NHL"⟩,
         ⟨.single, 25, .topen, none, none, "2026-01-03T00:00:00.000Z", none⟩] :=
  ⟨currentBankroll_consistency.1 _ 1000 "ALL" "NBA" none
      (some ("2026-01-01T00:00:00.000Z", "2026-01-02T00:00:00.000Z")),
   currentBankroll_consistency.2.2 _ 1000 ⟨100000, by norm_num⟩
     (by
       intro t ht
       simp only [List.mem_cons, List.not_mem_nil, or_false] at ht
       rcases ht with rfl | rfl | rfl
       · exact ⟨9091, by norm_num [profitOrZero]⟩
       · exact ⟨-5000, by norm_num [profitOrZero]⟩
       · exact ⟨0, by norm_num [profitOrZero]⟩)⟩

end BetTracker
